import Mathlib

/-!
# PhotoChop raster filters

A shallow embedding of the filters of `src/main.cpp` (`clamp`, `makeAqua`,
`makeGradient`, `redShift`, `blur`, `rotateRight`) and the properties proved
about them.

Conventions of the embedding

* The header `main.h` (the `Image` struct, `byte`, and the constants
  `IMG_HEIGHT`, `IMG_WIDTH`, `NUM_CHANNELS`, `RED`, `GREEN`, `BLUE`) is not part
  of the sources at hand.  The two dimensions are parameters `H` and `W` of
  every definition; the channel constants and the sample type follow the
  specification's data model.
* A C++ `for` loop is `forLoop lo hi body`, which runs `body` for the counter
  values `lo, lo+1, ..., hi-1` in that order.
* Array indexing is checked: an index outside the grid makes the access, and
  then the whole filter, return `none`.
* `int` is a 32-bit two's-complement integer.  Arithmetic on sample data and
  on the argument `shiftAmount` wraps (`wrapInt`).  Index arithmetic on loop
  counters and the dimension constants (`i - 1`, `IMG_WIDTH - 1 - i`) is exact:
  those operands are bounded by the dimensions, which are `int` constants.
  Storing an `int` into a `byte` keeps the low 8 bits (`toByte`).
* A finite `double` is the rational number it denotes; `min`, `max` and the
  truncating cast are exact on those.
-/

namespace PhotoChop

/-! ## Data model -/

/-- Modelled from the spec: the sample type `byte` of `main.h`, an unsigned
8-bit value ("unsigned 8-bit samples ... every sample lies in [0, 255]"). -/
abbrev byte : Type := Fin 256

/-- Modelled from the spec: the constant `NUM_CHANNELS` of `main.h`
("channels = {RED, GREEN, BLUE}"). -/
abbrev NUM_CHANNELS : Nat := 3

/-- Modelled from the spec: the channel index `RED` of `main.h`
("fixed index convention 0/1/2"). -/
abbrev RED : Int := 0

/-- Modelled from the spec: the channel index `GREEN` of `main.h`. -/
abbrev GREEN : Int := 1

/-- Modelled from the spec: the channel index `BLUE` of `main.h`. -/
abbrev BLUE : Int := 2

/-- Modelled from the spec: the struct `Image` of `main.h`, a grid
`data[IMG_HEIGHT][IMG_WIDTH][NUM_CHANNELS]` of bytes indexed by
row, column and channel.  `H` is `IMG_HEIGHT` and `W` is `IMG_WIDTH`. -/
@[ext]
structure Image (H W : Nat) where
  data : Fin H → Fin W → Fin NUM_CHANNELS → byte

/-- The initialiser `Image newImage = {0}`: every sample is zero. -/
def Image.zero (H W : Nat) : Image H W :=
  ⟨fun _ _ _ => 0⟩

/-- The condition for `data[i][j][k]` to lie inside the grid. -/
def inGrid (H W : Nat) (i j k : Int) : Prop :=
  0 ≤ i ∧ i < H ∧ 0 ≤ j ∧ j < W ∧ 0 ≤ k ∧ k < NUM_CHANNELS

instance (H W : Nat) (i j k : Int) : Decidable (inGrid H W i j k) := by
  unfold inGrid; infer_instance

/-- The read `img.data[i][j][k]`; `none` when the position is outside the grid. -/
def Image.get? {H W : Nat} (img : Image H W) (i j k : Int) : Option byte :=
  if h : inGrid H W i j k then
    some (img.data ⟨i.toNat, by unfold inGrid at h; omega⟩
                   ⟨j.toNat, by unfold inGrid at h; omega⟩
                   ⟨k.toNat, by unfold inGrid at h; omega⟩)
  else none

/-- The image that equals `img` except for the value `v` at `(i, j, k)`. -/
def Image.update {H W : Nat} (img : Image H W) (i j k : Int) (v : byte) : Image H W :=
  ⟨fun a b c => if (a.val : Int) = i ∧ (b.val : Int) = j ∧ (c.val : Int) = k then v
                else img.data a b c⟩

/-- The write `img.data[i][j][k] = v`; `none` when the position is outside the grid. -/
def Image.set? {H W : Nat} (img : Image H W) (i j k : Int) (v : byte) : Option (Image H W) :=
  if inGrid H W i j k then some (img.update i j k v) else none

/-! ## Machine arithmetic -/

/-- The value of a 32-bit two's-complement `int` holding the mathematical result `x`. -/
def wrapInt (x : Int) : Int :=
  (x + 2147483648) % 4294967296 - 2147483648

/-- The conversion of an `int` to `byte`: the value modulo 256. -/
def toByte (x : Int) : byte :=
  ⟨(x % 256).toNat, by omega⟩

/-- The integral part of a `double`, rounding toward zero, as `static_cast` does. -/
def truncToInt (value : ℚ) : Int :=
  if 0 ≤ value then ⌊value⌋ else ⌈value⌉

/-! ## Loops -/

/-- Runs `body` for `n` consecutive counter values starting at `i`. -/
def loopFrom {σ : Type} (body : Int → σ → Option σ) : Nat → Int → σ → Option σ
  | 0, _, s => some s
  | n + 1, i, s => (body i s).bind (loopFrom body n (i + 1))

/-- The loop `for (int i = lo; i < hi; i++) body`. -/
def forLoop {σ : Type} (lo hi : Int) (body : Int → σ → Option σ) (s : σ) : Option σ :=
  loopFrom body (hi - lo).toNat lo s

/-! ## The filters of `main.cpp` -/

/-- The helper `clamp` of `main.cpp`: forces a value into the range 0-255. -/
def clamp (value : ℚ) : byte :=
  let value := min value 255
  let value := max value 0
  toByte (truncToInt value)

/-- The filter `makeAqua` of `main.cpp`. -/
def makeAqua (H W : Nat) : Option (Image H W) :=
  forLoop 0 H (fun i newImage =>
    forLoop 0 W (fun j newImage => do
      let newImage ← newImage.set? i j GREEN (toByte 128)
      newImage.set? i j BLUE (toByte 255)) newImage) (Image.zero H W)

/-- The filter `makeGradient` of `main.cpp`. -/
def makeGradient (H W : Nat) : Option (Image H W) :=
  forLoop 0 H (fun i newImage =>
    forLoop 0 W (fun j newImage =>
      forLoop 0 NUM_CHANNELS (fun k newImage =>
        newImage.set? i j k (toByte (wrapInt (i * 2)))) newImage) newImage) (Image.zero H W)

/-- The filter `redShift` of `main.cpp`. -/
def redShift {H W : Nat} (source : Image H W) (shiftAmount : Int) : Option (Image H W) :=
  forLoop 0 H (fun i newImage =>
    forLoop 0 W (fun j newImage => do
      let red ← source.get? i j RED
      let newImage ← newImage.set? i j RED (clamp ((wrapInt (red.val + shiftAmount) : Int) : ℚ))
      let blue ← source.get? i j BLUE
      let newImage ← newImage.set? i j BLUE blue
      let green ← source.get? i j GREEN
      newImage.set? i j GREEN green) newImage) (Image.zero H W)

/-- The filter `blur` of `main.cpp`. -/
def blur {H W : Nat} (source : Image H W) : Option (Image H W) :=
  forLoop 1 ((H : Int) - 1) (fun i newImage =>
    forLoop 1 ((W : Int) - 1) (fun j newImage =>
      forLoop 0 NUM_CHANNELS (fun k newImage => do
        let currentPixelValue ← source.get? i j k
        let abovePixelValue ← source.get? (i - 1) j k
        let belowPixelValue ← source.get? (i + 1) j k
        let leftPixelValue ← source.get? i (j - 1) k
        let rightPixelValue ← source.get? i (j + 1) k
        let avgValue : byte := toByte (Int.tdiv
          (wrapInt (wrapInt (wrapInt (wrapInt ((currentPixelValue.val : Int) + abovePixelValue.val)
              + belowPixelValue.val) + leftPixelValue.val) + rightPixelValue.val)) 5)
        newImage.set? i j k avgValue) newImage) newImage) (Image.zero H W)

/-- The filter `rotateRight` of `main.cpp`. -/
def rotateRight {H W : Nat} (source : Image H W) : Option (Image H W) :=
  forLoop 0 H (fun i newImage =>
    forLoop 0 W (fun j newImage =>
      forLoop 0 NUM_CHANNELS (fun k newImage => do
        let newRow : Int := j
        let newCol : Int := ((W : Int) - 1) - i
        let v ← source.get? i j k
        newImage.set? newRow newCol k v) newImage) newImage) (Image.zero H W)

/-! ## Sample rasters -/

/-- A 1x1 raster whose only pixel is (1, 1, 1). -/
def pixel1 : Image 1 1 :=
  ⟨fun _ _ _ => 1⟩

/-- A 2x2 raster with a distinct marker value in every sample: pixel `(a, b)` holds
`10 * (2a + b + 1) + c` in channel `c`. -/
def marked2 : Image 2 2 :=
  ⟨fun a b c => Fin.ofNat (10 * (2 * a.val + b.val + 1) + c.val)⟩

/-- A 3x3 raster with a distinct value in every sample: pixel `(a, b)` holds
`60 * a + 20 * b + c` in channel `c`. -/
def ramp3 : Image 3 3 :=
  ⟨fun a b c => Fin.ofNat (60 * a.val + 20 * b.val + c.val)⟩

/-- A 3x3 raster that is white everywhere: every sample is 255. -/
def white3 : Image 3 3 :=
  ⟨fun _ _ _ => 255⟩

/-- A 1x1 raster whose only pixel is (200, 200, 200). -/
def red200 : Image 1 1 :=
  ⟨fun _ _ _ => 200⟩

/-- A raster of 2 rows and 3 columns, every sample 7. -/
def wide23 : Image 2 3 :=
  ⟨fun _ _ _ => 7⟩

/-- A raster of 3 rows and 2 columns, every sample 7. -/
def tall32 : Image 3 2 :=
  ⟨fun _ _ _ => 7⟩

/-! ## Reasoning about loops that write into an image -/

/-- The image `img` is `base` overwritten with the values `F` at the positions `V`. -/
def Painted {H W : Nat} (V : Int → Int → Int → Prop) (F : Int → Int → Int → byte)
    (base img : Image H W) : Prop :=
  ∀ (a : Fin H) (b : Fin W) (c : Fin NUM_CHANNELS),
    (V a.val b.val c.val → img.data a b c = F a.val b.val c.val) ∧
    (¬ V a.val b.val c.val → img.data a b c = base.data a b c)

/-- An invariant kept by every iteration holds after `loopFrom`, which returns a state. -/
theorem loopFrom_inv {σ : Type} (Inv : Int → σ → Prop) (body : Int → σ → Option σ) :
    ∀ (n : Nat) (i : Int) (s : σ), Inv i s →
      (∀ m t, i ≤ m → m < i + n → Inv m t → ∃ t', body m t = some t' ∧ Inv (m + 1) t') →
      ∃ s', loopFrom body n i s = some s' ∧ Inv (i + n) s'
  | 0, i, s, h0, _ => ⟨s, rfl, by simpa using h0⟩
  | n + 1, i, s, h0, hstep => by
    obtain ⟨s1, hb, h1⟩ := hstep i s le_rfl (by push_cast; omega) h0
    obtain ⟨s2, hl, h2⟩ := loopFrom_inv Inv body n (i + 1) s1 h1
      (fun m t hm hlt hinv => hstep m t (by omega) (by push_cast; omega) hinv)
    refine ⟨s2, ?_, ?_⟩
    · simp [loopFrom, hb, hl]
    · have e : i + ((n + 1 : Nat) : Int) = i + 1 + n := by push_cast; ring
      rw [e]; exact h2

/-- An invariant kept by every iteration holds after `forLoop`, which returns a state. -/
theorem forLoop_inv {σ : Type} (Inv : Int → σ → Prop) (lo hi : Int)
    (body : Int → σ → Option σ) (s : σ) (h0 : Inv lo s)
    (hstep : ∀ m t, lo ≤ m → m < hi → Inv m t → ∃ t', body m t = some t' ∧ Inv (m + 1) t') :
    ∃ s', forLoop lo hi body s = some s' ∧ Inv (max lo hi) s' := by
  have e : lo + ((hi - lo).toNat : Int) = max lo hi := by omega
  rw [← e]
  exact loopFrom_inv Inv body _ lo s h0 (fun m t hm hlt hinv => hstep m t hm (by omega) hinv)

theorem exists_fin_of_bounds {n : Nat} {i : Int} (h0 : 0 ≤ i) (h1 : i < n) :
    ∃ a : Fin n, (a.val : Int) = i :=
  ⟨⟨i.toNat, by omega⟩, by simp [h0]⟩

theorem get?_fin {H W : Nat} (img : Image H W) (a : Fin H) (b : Fin W) (c : Fin NUM_CHANNELS) :
    img.get? a.val b.val c.val = some (img.data a b c) := by
  have h : inGrid H W a.val b.val c.val := by
    unfold inGrid; have := a.isLt; have := b.isLt; have := c.isLt; omega
  simp [Image.get?, h]

theorem painted_refl {H W : Nat} (F : Int → Int → Int → byte) (img : Image H W) :
    Painted (fun _ _ _ => False) F img img :=
  fun _ _ _ => ⟨fun h => h.elim, fun _ => rfl⟩

theorem painted_congr {H W : Nat} {V V' : Int → Int → Int → Prop} {F : Int → Int → Int → byte}
    {base img : Image H W}
    (hV : ∀ (a : Fin H) (b : Fin W) (c : Fin NUM_CHANNELS),
      V a.val b.val c.val ↔ V' a.val b.val c.val)
    (h : Painted V F base img) : Painted V' F base img := by
  intro a b c
  rw [← hV a b c]
  exact h a b c

theorem painted_seq {H W : Nat} {V1 V2 : Int → Int → Int → Prop} {F : Int → Int → Int → byte}
    {img img1 img2 : Image H W} (h1 : Painted V1 F img img1) (h2 : Painted V2 F img1 img2) :
    Painted (fun a b c => V1 a b c ∨ V2 a b c) F img img2 := by
  intro a b c
  by_cases hv2 : V2 a.val b.val c.val
  · exact ⟨fun _ => (h2 a b c).1 hv2, fun hn => (hn (Or.inr hv2)).elim⟩
  · refine ⟨fun hv => ?_, fun hn => ?_⟩
    · rw [(h2 a b c).2 hv2]
      exact (h1 a b c).1 (hv.resolve_right hv2)
    · rw [(h2 a b c).2 hv2]
      exact (h1 a b c).2 (fun hv1 => hn (Or.inl hv1))

/-- A write inside the grid paints exactly the written position. -/
theorem painted_set {H W : Nat} (F : Int → Int → Int → byte) (img : Image H W)
    (i j k : Int) (v : byte) (hg : inGrid H W i j k) (hv : v = F i j k) :
    ∃ img', img.set? i j k v = some img' ∧
      Painted (fun a b c => a = i ∧ b = j ∧ c = k) F img img' := by
  refine ⟨img.update i j k v, by simp [Image.set?, hg], ?_⟩
  intro a b c
  constructor
  · rintro ⟨rfl, rfl, rfl⟩
    simp [Image.update, hv]
  · intro hn
    simp only [Image.update]
    rw [if_neg hn]

/-- A loop whose iteration `n` paints the positions `V n` paints their union. -/
theorem painted_loop {H W : Nat} (V : Int → Int → Int → Int → Prop)
    (F : Int → Int → Int → byte) (lo hi : Int) (body : Int → Image H W → Option (Image H W))
    (hbody : ∀ n, lo ≤ n → n < hi → ∀ img, ∃ img', body n img = some img' ∧
      Painted (V n) F img img')
    (base : Image H W) :
    ∃ out, forLoop lo hi body base = some out ∧
      Painted (fun a b c => ∃ n, lo ≤ n ∧ n < hi ∧ V n a b c) F base out := by
  obtain ⟨out, hout, hinv⟩ := forLoop_inv
    (fun m img => Painted (fun a b c => ∃ n, lo ≤ n ∧ n < m ∧ n < hi ∧ V n a b c) F base img)
    lo hi body base
    (painted_congr (fun a b c => ⟨fun h => h.elim, fun ⟨n, h1, h2, _⟩ => by omega⟩)
      (painted_refl F base))
    (fun m img hm hlt hinv => by
      obtain ⟨img', hb, hp⟩ := hbody m hm hlt img
      refine ⟨img', hb, painted_congr (fun a b c => ?_) (painted_seq hinv hp)⟩
      constructor
      · rintro (⟨n, h1, h2, h3, h4⟩ | h)
        · exact ⟨n, h1, by omega, h3, h4⟩
        · exact ⟨m, hm, by omega, hlt, h⟩
      · rintro ⟨n, h1, h2, h3, h4⟩
        by_cases hnm : n = m
        · subst hnm; exact Or.inr h4
        · exact Or.inl ⟨n, h1, by omega, h3, h4⟩)
  refine ⟨out, hout, painted_congr (fun a b c => ?_) hinv⟩
  constructor
  · rintro ⟨n, h1, _, h3, h4⟩
    exact ⟨n, h1, h3, h4⟩
  · rintro ⟨n, h1, h3, h4⟩
    exact ⟨n, h1, by omega, h3, h4⟩


theorem get?_of_eq {H W : Nat} (img : Image H W) (a : Fin H) (b : Fin W) (c : Fin NUM_CHANNELS)
    (i j k : Int) (hi : i = a.val) (hj : j = b.val) (hk : k = c.val) :
    img.get? i j k = some (img.data a b c) := by
  subst hi hj hk
  exact get?_fin img a b c

/-- Two nested loops whose iteration `(i, j)` paints the positions `V i j` paint
their union. -/
theorem painted_grid {H W : Nat} (V : Int → Int → Int → Int → Int → Prop)
    (F : Int → Int → Int → byte) (loi hii loj hij : Int)
    (body : Int → Int → Image H W → Option (Image H W))
    (hbody : ∀ i, loi ≤ i → i < hii → ∀ j, loj ≤ j → j < hij → ∀ img,
      ∃ img', body i j img = some img' ∧ Painted (V i j) F img img')
    (base : Image H W) :
    ∃ out, forLoop loi hii (fun i img => forLoop loj hij (fun j img => body i j img) img) base
        = some out ∧
      Painted (fun a b c => ∃ i, loi ≤ i ∧ i < hii ∧ ∃ j, loj ≤ j ∧ j < hij ∧ V i j a b c)
        F base out :=
  painted_loop (fun i a b c => ∃ j, loj ≤ j ∧ j < hij ∧ V i j a b c) F loi hii _
    (fun i hi0 hi1 img => painted_loop (V i) F loj hij _
      (fun j hj0 hj1 img => hbody i hi0 hi1 j hj0 hj1 img) img) base

/-! ## Machine arithmetic lemmas -/

theorem wrapInt_of_bounds {x : Int} (h0 : -2147483648 ≤ x) (h1 : x ≤ 2147483647) :
    wrapInt x = x := by
  unfold wrapInt; omega

theorem toByte_wrapInt (x : Int) : toByte (wrapInt x) = toByte x := by
  unfold toByte wrapInt
  apply Fin.ext
  simp only
  omega

theorem toByte_val_of_bounds {x : Int} (h0 : 0 ≤ x) (h1 : x ≤ 255) :
    ((toByte x).val : Int) = x := by
  unfold toByte
  simp only
  omega

theorem truncToInt_intCast (x : Int) : truncToInt (x : ℚ) = x := by
  unfold truncToInt
  split <;> simp

/-- The function `clamp` on an `int` argument. -/
theorem clamp_intCast (x : Int) : clamp (x : ℚ) = toByte (max (min x 255) 0) := by
  unfold clamp
  have e : max (min (x : ℚ) 255) 0 = ((max (min x 255) 0 : Int) : ℚ) := by push_cast; rfl
  simp only [e, truncToInt_intCast]

theorem clamp_intCast_val (x : Int) : ((clamp (x : ℚ)).val : Int) = max (min x 255) 0 := by
  rw [clamp_intCast]
  exact toByte_val_of_bounds (by omega) (by omega)

/-- The five-sample average of `blur` neither wraps as an `int` nor as a `byte`. -/
theorem avg_byte (x0 x1 x2 x3 x4 : byte) :
    (toByte (Int.tdiv (wrapInt (wrapInt (wrapInt (wrapInt ((x0.val : Int) + x1.val) + x2.val)
      + x3.val) + x4.val)) 5)).val = (x0.val + x1.val + x2.val + x3.val + x4.val) / 5 := by
  have h0 := x0.isLt; have h1 := x1.isLt; have h2 := x2.isLt
  have h3 := x3.isLt; have h4 := x4.isLt
  rw [wrapInt_of_bounds (x := (x0.val : Int) + x1.val) (by omega) (by omega),
    wrapInt_of_bounds (x := (x0.val : Int) + x1.val + x2.val) (by omega) (by omega),
    wrapInt_of_bounds (x := (x0.val : Int) + x1.val + x2.val + x3.val) (by omega) (by omega),
    wrapInt_of_bounds (x := (x0.val : Int) + x1.val + x2.val + x3.val + x4.val)
      (by omega) (by omega)]
  rw [Int.tdiv_eq_ediv (by omega) (by omega)]
  have e := toByte_val_of_bounds
    (x := ((x0.val : Int) + x1.val + x2.val + x3.val + x4.val) / 5) (by omega) (by omega)
  omega

/-- The byte stored by `makeGradient` in row `i` is `2 * i` modulo 256. -/
theorem gradient_byte (i : Nat) : (toByte (wrapInt ((i : Int) * 2))).val = (2 * i) % 256 := by
  rw [toByte_wrapInt]
  unfold toByte
  simp only
  omega

theorem inGrid_chan {H W : Nat} {i j : Int} (c : Fin NUM_CHANNELS)
    (hi0 : 0 ≤ i) (hi1 : i < H) (hj0 : 0 ≤ j) (hj1 : j < W) : inGrid H W i j c.val := by
  have := c.isLt
  unfold inGrid
  omega

/-! ## What each filter returns -/

/-- The raster returned by `makeAqua`, sample by sample. -/
theorem makeAqua_spec (H W : Nat) :
    ∃ out, makeAqua H W = some out ∧
      ∀ (a : Fin H) (b : Fin W),
        out.data a b 0 = 0 ∧ out.data a b 1 = 128 ∧ out.data a b 2 = 255 := by
  obtain ⟨out, hout, hp⟩ := painted_grid
    (fun i j a b c => (a = i ∧ b = j ∧ c = GREEN) ∨ (a = i ∧ b = j ∧ c = BLUE))
    (fun _ _ c => if c = GREEN then toByte 128 else toByte 255) 0 H 0 W
    (fun i j newImage => do
      let newImage ← newImage.set? i j GREEN (toByte 128)
      newImage.set? i j BLUE (toByte 255))
    (fun i hi0 hi1 j hj0 hj1 img => by
      have hg1 : inGrid H W i j GREEN := inGrid_chan 1 hi0 hi1 hj0 hj1
      have hg2 : inGrid H W i j BLUE := inGrid_chan 2 hi0 hi1 hj0 hj1
      obtain ⟨i1, h1, p1⟩ := painted_set
        (fun _ _ c => if c = GREEN then toByte 128 else toByte 255) img i j GREEN (toByte 128)
        hg1 (by simp)
      obtain ⟨i2, h2, p2⟩ := painted_set
        (fun _ _ c => if c = GREEN then toByte 128 else toByte 255) i1 i j BLUE (toByte 255)
        hg2 (by simp)
      exact ⟨i2, by simp [h1, h2], painted_seq p1 p2⟩)
    (Image.zero H W)
  refine ⟨out, hout, fun a b => ⟨?_, ?_, ?_⟩⟩
  · rw [(hp a b 0).2 (by rintro ⟨i, _, _, j, _, _, (⟨_, _, h⟩ | ⟨_, _, h⟩)⟩ <;> simp at h)]
    rfl
  · rw [(hp a b 1).1 ⟨a.val, by omega, by omega, b.val, by omega, by omega,
      Or.inl ⟨rfl, rfl, rfl⟩⟩]
    rfl
  · rw [(hp a b 2).1 ⟨a.val, by omega, by omega, b.val, by omega, by omega,
      Or.inr ⟨rfl, rfl, rfl⟩⟩]
    rfl

/-- The raster returned by `makeGradient`, sample by sample. -/
theorem makeGradient_spec (H W : Nat) :
    ∃ out, makeGradient H W = some out ∧
      ∀ (a : Fin H) (b : Fin W) (c : Fin NUM_CHANNELS),
        out.data a b c = toByte (wrapInt ((a.val : Int) * 2)) := by
  obtain ⟨out, hout, hp⟩ := painted_grid
    (fun i j a b c => ∃ k, 0 ≤ k ∧ k < (NUM_CHANNELS : Int) ∧ a = i ∧ b = j ∧ c = k)
    (fun a _ _ => toByte (wrapInt (a * 2))) 0 H 0 W
    (fun i j newImage => forLoop 0 NUM_CHANNELS (fun k newImage =>
        newImage.set? i j k (toByte (wrapInt (i * 2)))) newImage)
    (fun i hi0 hi1 j hj0 hj1 img => painted_loop
      (fun k a b c => a = i ∧ b = j ∧ c = k) (fun a _ _ => toByte (wrapInt (a * 2)))
      0 NUM_CHANNELS (fun k newImage => newImage.set? i j k (toByte (wrapInt (i * 2))))
      (fun k hk0 hk1 img => painted_set (fun a _ _ => toByte (wrapInt (a * 2))) img i j k _
        (by unfold inGrid; omega) rfl) img)
    (Image.zero H W)
  refine ⟨out, hout, fun a b c => ?_⟩
  rw [(hp a b c).1 ⟨a.val, by omega, by omega, b.val, by omega, by omega,
    c.val, by omega, by omega, rfl, rfl, rfl⟩]

/-- The raster returned by `redShift`, sample by sample, for any `shiftAmount`. -/
theorem redShift_spec {H W : Nat} (source : Image H W) (shiftAmount : Int) :
    ∃ out, redShift source shiftAmount = some out ∧
      ∀ (a : Fin H) (b : Fin W),
        out.data a b 0
          = clamp ((wrapInt ((source.data a b 0).val + shiftAmount) : Int) : ℚ) ∧
        out.data a b 1 = source.data a b 1 ∧ out.data a b 2 = source.data a b 2 := by
  obtain ⟨out, hout, hp⟩ := painted_grid
    (fun i j a b c => ((a = i ∧ b = j ∧ c = RED) ∨ (a = i ∧ b = j ∧ c = BLUE)) ∨
      (a = i ∧ b = j ∧ c = GREEN))
    (fun a b c => if c = RED then
        clamp ((wrapInt (((source.get? a b RED).getD 0).val + shiftAmount) : Int) : ℚ)
      else (source.get? a b c).getD 0) 0 H 0 W
    (fun i j newImage => do
      let red ← source.get? i j RED
      let newImage ← newImage.set? i j RED (clamp ((wrapInt (red.val + shiftAmount) : Int) : ℚ))
      let blue ← source.get? i j BLUE
      let newImage ← newImage.set? i j BLUE blue
      let green ← source.get? i j GREEN
      newImage.set? i j GREEN green)
    (fun i hi0 hi1 j hj0 hj1 img => by
      obtain ⟨a, rfl⟩ := exists_fin_of_bounds hi0 hi1
      obtain ⟨b, rfl⟩ := exists_fin_of_bounds hj0 hj1
      have hr : source.get? a.val b.val RED = some (source.data a b 0) :=
        get?_of_eq source a b 0 _ _ _ rfl rfl rfl
      have hg : source.get? a.val b.val GREEN = some (source.data a b 1) :=
        get?_of_eq source a b 1 _ _ _ rfl rfl rfl
      have hb : source.get? a.val b.val BLUE = some (source.data a b 2) :=
        get?_of_eq source a b 2 _ _ _ rfl rfl rfl
      obtain ⟨i1, h1, p1⟩ := painted_set
        (fun a b c => if c = RED then
          clamp ((wrapInt (((source.get? a b RED).getD 0).val + shiftAmount) : Int) : ℚ)
        else (source.get? a b c).getD 0)
        img a.val b.val RED
        (clamp ((wrapInt ((source.data a b 0).val + shiftAmount) : Int) : ℚ))
        (inGrid_chan 0 hi0 hi1 hj0 hj1) (by simp [hr])
      obtain ⟨i2, h2, p2⟩ := painted_set
        (fun a b c => if c = RED then
          clamp ((wrapInt (((source.get? a b RED).getD 0).val + shiftAmount) : Int) : ℚ)
        else (source.get? a b c).getD 0)
        i1 a.val b.val BLUE (source.data a b 2)
        (inGrid_chan 2 hi0 hi1 hj0 hj1) (by simp [hb])
      obtain ⟨i3, h3, p3⟩ := painted_set
        (fun a b c => if c = RED then
          clamp ((wrapInt (((source.get? a b RED).getD 0).val + shiftAmount) : Int) : ℚ)
        else (source.get? a b c).getD 0)
        i2 a.val b.val GREEN (source.data a b 1)
        (inGrid_chan 1 hi0 hi1 hj0 hj1) (by simp [hg])
      exact ⟨i3, by simp [hr, hg, hb, h1, h2, h3], painted_seq (painted_seq p1 p2) p3⟩)
    (Image.zero H W)
  refine ⟨out, hout, fun a b => ⟨?_, ?_, ?_⟩⟩
  · rw [(hp a b 0).1 ⟨a.val, by omega, by omega, b.val, by omega, by omega,
      Or.inl (Or.inl ⟨rfl, rfl, rfl⟩)⟩]
    have hr : source.get? a.val b.val RED = some (source.data a b 0) :=
      get?_of_eq source a b 0 _ _ _ rfl rfl rfl
    simp [hr]
  · rw [(hp a b 1).1 ⟨a.val, by omega, by omega, b.val, by omega, by omega,
      Or.inr ⟨rfl, rfl, rfl⟩⟩]
    have hg : source.get? a.val b.val GREEN = some (source.data a b 1) :=
      get?_of_eq source a b 1 _ _ _ rfl rfl rfl
    simp [hg]
  · rw [(hp a b 2).1 ⟨a.val, by omega, by omega, b.val, by omega, by omega,
      Or.inl (Or.inr ⟨rfl, rfl, rfl⟩)⟩]
    have hb : source.get? a.val b.val BLUE = some (source.data a b 2) :=
      get?_of_eq source a b 2 _ _ _ rfl rfl rfl
    simp [hb]

/-- The raster returned by `blur`, sample by sample, for any dimensions. -/
theorem blur_spec {H W : Nat} (source : Image H W) :
    ∃ out, blur source = some out ∧
      ∀ (a : Fin H) (b : Fin W) (c : Fin NUM_CHANNELS),
        (∀ h : 1 ≤ a.val ∧ a.val + 1 < H ∧ 1 ≤ b.val ∧ b.val + 1 < W,
          (out.data a b c).val =
            ((source.data a b c).val + (source.data ⟨a.val - 1, by omega⟩ b c).val
              + (source.data ⟨a.val + 1, by omega⟩ b c).val
              + (source.data a ⟨b.val - 1, by omega⟩ c).val
              + (source.data a ⟨b.val + 1, by omega⟩ c).val) / 5) ∧
        (¬ (1 ≤ a.val ∧ a.val + 1 < H ∧ 1 ≤ b.val ∧ b.val + 1 < W) → out.data a b c = 0) := by
  obtain ⟨out, hout, hp⟩ := painted_grid
    (fun i j a b c => ∃ k, 0 ≤ k ∧ k < (NUM_CHANNELS : Int) ∧ a = i ∧ b = j ∧ c = k)
    (fun a b c => toByte (Int.tdiv
      (wrapInt (wrapInt (wrapInt (wrapInt ((((source.get? a b c).getD 0).val : Int)
        + ((source.get? (a - 1) b c).getD 0).val) + ((source.get? (a + 1) b c).getD 0).val)
        + ((source.get? a (b - 1) c).getD 0).val) + ((source.get? a (b + 1) c).getD 0).val)) 5))
    1 ((H : Int) - 1) 1 ((W : Int) - 1)
    (fun i j newImage => forLoop 0 NUM_CHANNELS (fun k newImage => do
        let currentPixelValue ← source.get? i j k
        let abovePixelValue ← source.get? (i - 1) j k
        let belowPixelValue ← source.get? (i + 1) j k
        let leftPixelValue ← source.get? i (j - 1) k
        let rightPixelValue ← source.get? i (j + 1) k
        let avgValue : byte := toByte (Int.tdiv
          (wrapInt (wrapInt (wrapInt (wrapInt ((currentPixelValue.val : Int) + abovePixelValue.val)
              + belowPixelValue.val) + leftPixelValue.val) + rightPixelValue.val)) 5)
        newImage.set? i j k avgValue) newImage)
    (fun i hi0 hi1 j hj0 hj1 img => painted_loop
      (fun k a b c => a = i ∧ b = j ∧ c = k) _ 0 NUM_CHANNELS _
      (fun k hk0 hk1 img => by
        obtain ⟨a, ha⟩ := exists_fin_of_bounds (n := H) (i := i) (by omega) (by omega)
        obtain ⟨au, hau⟩ := exists_fin_of_bounds (n := H) (i := i - 1) (by omega) (by omega)
        obtain ⟨ad, had⟩ := exists_fin_of_bounds (n := H) (i := i + 1) (by omega) (by omega)
        obtain ⟨b, hb⟩ := exists_fin_of_bounds (n := W) (i := j) (by omega) (by omega)
        obtain ⟨bl, hbl⟩ := exists_fin_of_bounds (n := W) (i := j - 1) (by omega) (by omega)
        obtain ⟨br, hbr⟩ := exists_fin_of_bounds (n := W) (i := j + 1) (by omega) (by omega)
        obtain ⟨c, hc⟩ := exists_fin_of_bounds hk0 hk1
        have e0 := get?_of_eq source a b c i j k ha.symm hb.symm hc.symm
        have e1 := get?_of_eq source au b c (i - 1) j k hau.symm hb.symm hc.symm
        have e2 := get?_of_eq source ad b c (i + 1) j k had.symm hb.symm hc.symm
        have e3 := get?_of_eq source a bl c i (j - 1) k ha.symm hbl.symm hc.symm
        have e4 := get?_of_eq source a br c i (j + 1) k ha.symm hbr.symm hc.symm
        simp only [e0, e1, e2, e3, e4, Option.bind_eq_bind, Option.some_bind]
        exact painted_set _ img i j k _ (by unfold inGrid; omega)
          (by simp only [e0, e1, e2, e3, e4, Option.getD_some])) img)
    (Image.zero H W)
  refine ⟨out, hout, fun a b c => ⟨fun h => ?_, fun h => ?_⟩⟩
  · rw [(hp a b c).1 ⟨a.val, by omega, by omega, b.val, by omega, by omega,
      c.val, by omega, by omega, rfl, rfl, rfl⟩]
    have e0 := get?_fin source a b c
    have e1 := get?_of_eq source ⟨a.val - 1, by omega⟩ b c ((a.val : Int) - 1) b.val c.val
      (by simp only; omega) rfl rfl
    have e2 := get?_of_eq source ⟨a.val + 1, by omega⟩ b c ((a.val : Int) + 1) b.val c.val
      (by simp only; omega) rfl rfl
    have e3 := get?_of_eq source a ⟨b.val - 1, by omega⟩ c a.val ((b.val : Int) - 1) c.val
      rfl (by simp only; omega) rfl
    have e4 := get?_of_eq source a ⟨b.val + 1, by omega⟩ c a.val ((b.val : Int) + 1) c.val
      rfl (by simp only; omega) rfl
    simp only [e0, e1, e2, e3, e4, Option.getD_some]
    exact avg_byte _ _ _ _ _
  · rw [(hp a b c).2 (by
      rintro ⟨i, hi0, hi1, j, hj0, hj1, k, _, _, rfl, rfl, _⟩
      exact h (by omega))]
    rfl

/-- The raster returned by `rotateRight` on a square raster, sample by sample. -/
theorem rotateRight_spec {N : Nat} (source : Image N N) :
    ∃ out, rotateRight source = some out ∧
      ∀ (a b : Fin N) (c : Fin NUM_CHANNELS),
        out.data a b c = source.data ⟨N - 1 - b.val, by omega⟩ a c := by
  obtain ⟨out, hout, hp⟩ := painted_grid
    (fun i j a b c => ∃ k, 0 ≤ k ∧ k < (NUM_CHANNELS : Int) ∧
      a = j ∧ b = (N : Int) - 1 - i ∧ c = k)
    (fun a b c => (source.get? ((N : Int) - 1 - b) a c).getD 0) 0 N 0 N
    (fun i j newImage =>
        forLoop 0 NUM_CHANNELS (fun k newImage => do
          let newRow : Int := j
          let newCol : Int := ((N : Int) - 1) - i
          let v ← source.get? i j k
          newImage.set? newRow newCol k v) newImage)
    (fun i hi0 hi1 j hj0 hj1 img => painted_loop
        (fun k a b c => a = j ∧ b = (N : Int) - 1 - i ∧ c = k) _ 0 NUM_CHANNELS _
        (fun k hk0 hk1 img => by
          obtain ⟨a, rfl⟩ := exists_fin_of_bounds hi0 hi1
          obtain ⟨b, rfl⟩ := exists_fin_of_bounds hj0 hj1
          obtain ⟨c, rfl⟩ := exists_fin_of_bounds hk0 hk1
          have hg : inGrid N N b.val ((N : Int) - 1 - a.val) c.val := by
            unfold inGrid; omega
          have e : (N : Int) - 1 - ((N : Int) - 1 - a.val) = a.val := by ring
          simp only [get?_fin, Option.bind_eq_bind, Option.some_bind]
          exact painted_set _ img _ _ _ _ hg (by simp [e, get?_fin])) img)
    (Image.zero N N)
  refine ⟨out, hout, fun a b c => ?_⟩
  have hb := b.isLt
  rw [(hp a b c).1 ⟨(N : Int) - 1 - b.val, by omega, by omega, a.val, by omega, by omega,
    c.val, by omega, by omega, rfl, by ring, rfl⟩]
  show (source.get? ((N : Int) - 1 - b.val) a.val c.val).getD 0 = _
  rw [get?_of_eq source ⟨N - 1 - b.val, by omega⟩ a c _ _ _ (by simp; omega) rfl rfl]
  rfl

/-! ## Properties of `clamp` -/

theorem clamp_of_gt {x : ℚ} (h : 255 < x) : clamp x = 255 := by
  unfold clamp
  have e : max (min x 255) 0 = ((255 : Int) : ℚ) := by
    rw [min_eq_right h.le]; norm_num
  simp only [e, truncToInt_intCast]
  rfl

theorem clamp_of_neg {x : ℚ} (h : x < 0) : clamp x = 0 := by
  unfold clamp
  have e : max (min x 255) 0 = ((0 : Int) : ℚ) := by
    rw [min_eq_left (by linarith), max_eq_right h.le]; norm_num
  simp only [e, truncToInt_intCast]
  rfl

theorem clamped_of_mem {x : ℚ} (h0 : 0 ≤ x) (h1 : x ≤ 255) : max (min x 255) 0 = x := by
  rw [min_eq_left h1, max_eq_left h0]

theorem floor_bounds_of_mem {x : ℚ} (h0 : 0 ≤ x) (h1 : x ≤ 255) : 0 ≤ ⌊x⌋ ∧ ⌊x⌋ ≤ 255 := by
  constructor
  · exact Int.floor_nonneg.mpr h0
  · have h : ⌊x⌋ ≤ ⌊(255 : ℚ)⌋ := Int.floor_mono h1
    have e : ⌊(255 : ℚ)⌋ = 255 := by simp
    omega

theorem clamp_of_mem {x : ℚ} (h0 : 0 ≤ x) (h1 : x ≤ 255) : ((clamp x).val : Int) = ⌊x⌋ := by
  unfold clamp
  simp only [clamped_of_mem h0 h1]
  unfold truncToInt
  rw [if_pos h0]
  exact toByte_val_of_bounds (floor_bounds_of_mem h0 h1).1 (floor_bounds_of_mem h0 h1).2
/-! ## Claims about `redShift`, `blur` and `rotateRight` -/

/-- C1 (failing input): on the 1x1 raster whose RED sample is 1, shifting by
2147483647 (the largest `int`) makes the `int` sum wrap to -2147483648, so the
RED output is 0, whereas clamping the mathematical sum 2147483648 gives 255. -/
theorem redShift_sum_wraps :
    ∃ out, redShift pixel1 2147483647 = some out ∧
      (out.data 0 0 0).val = 0 ∧
      (clamp (((pixel1.data 0 0 0).val : ℚ) + ((2147483647 : Int) : ℚ))).val = 255 := by
  obtain ⟨out, hout, hp⟩ := redShift_spec pixel1 2147483647
  refine ⟨out, hout, ?_, ?_⟩
  · rw [(hp 0 0).1, clamp_intCast]
    decide
  · have e : (((pixel1.data 0 0 0).val : ℚ) + ((2147483647 : Int) : ℚ))
        = ((2147483648 : Int) : ℚ) := by
      simp only [pixel1]; norm_num
    rw [e, clamp_intCast]
    decide

/-- The samples `redShift` returns at a pixel: GREEN (channel 1) and BLUE (channel 2)
are those of the source for every shift, and RED (channel 0) is `clamp` of the
mathematical sum at every pixel whose `int` sum `source.RED + shiftAmount` does not
leave the 32-bit range. -/
theorem redShift_pixels {H W : Nat} (source : Image H W) (shiftAmount : Int) :
    ∃ out, redShift source shiftAmount = some out ∧
      ∀ (i : Fin H) (j : Fin W),
        (-2147483648 ≤ ((source.data i j 0).val : Int) + shiftAmount →
          ((source.data i j 0).val : Int) + shiftAmount ≤ 2147483647 →
          out.data i j 0 = clamp (((source.data i j 0).val : ℚ) + (shiftAmount : ℚ))) ∧
        out.data i j 1 = source.data i j 1 ∧
        out.data i j 2 = source.data i j 2 := by
  obtain ⟨out, hout, hp⟩ := redShift_spec source shiftAmount
  refine ⟨out, hout, fun i j => ⟨fun h0 h1 => ?_, (hp i j).2.1, (hp i j).2.2⟩⟩
  rw [(hp i j).1, wrapInt_of_bounds h0 h1]
  push_cast
  rfl

/-- C2: for an interior pixel `(i, j)` and a channel `k`, `blur` returns a raster whose
sample there is the floor of one fifth of the sum of the source samples at the pixel
and at its upper, lower, left and right neighbours. -/
theorem blur_interior {H W : Nat} (source : Image H W) (i : Fin H) (j : Fin W)
    (k : Fin NUM_CHANNELS)
    (h : 1 ≤ i.val ∧ i.val + 1 < H ∧ 1 ≤ j.val ∧ j.val + 1 < W) :
    ∃ out, blur source = some out ∧
      (out.data i j k).val =
        ((source.data i j k).val + (source.data ⟨i.val - 1, by omega⟩ j k).val
          + (source.data ⟨i.val + 1, by omega⟩ j k).val
          + (source.data i ⟨j.val - 1, by omega⟩ k).val
          + (source.data i ⟨j.val + 1, by omega⟩ k).val) / 5 := by
  obtain ⟨out, hout, hp⟩ := blur_spec source
  exact ⟨out, hout, (hp i j k).1 h⟩

/-- C2 (witness): the centre of the 3x3 ramp raster, channel 0, holds
`(80 + 20 + 140 + 60 + 100) / 5 = 80`. -/
theorem blur_interior_witness :
    ∃ out, blur ramp3 = some out ∧ (out.data 1 1 0).val = 80 := by
  obtain ⟨out, hout, hv⟩ := blur_interior ramp3 1 1 0 (by decide)
  exact ⟨out, hout, by rw [hv]; decide⟩

/-- C3: every pixel of `blur source` in row 0, the last row, column 0 or the last
column is zero in all three channels. -/
theorem blur_border {H W : Nat} (source : Image H W) (i : Fin H) (j : Fin W)
    (k : Fin NUM_CHANNELS)
    (h : i.val = 0 ∨ i.val + 1 = H ∨ j.val = 0 ∨ j.val + 1 = W) :
    ∃ out, blur source = some out ∧ out.data i j k = 0 := by
  obtain ⟨out, hout, hp⟩ := blur_spec source
  exact ⟨out, hout, (hp i j k).2 (by omega)⟩

/-- C3 (witness): the pixel in row 1 of the last column of the blurred 3x3 ramp
raster is zero although the source holds 100 there. -/
theorem blur_border_witness :
    (ramp3.data 1 2 0).val = 100 ∧ ∃ out, blur ramp3 = some out ∧ out.data 1 2 0 = 0 :=
  ⟨by decide, blur_border ramp3 1 2 0 (by decide)⟩

/-- C4: on a square raster of side `N`, `rotateRight` returns a raster in which the
source pixel `(i, j)` sits at `(j, N-1-i)`; equivalently the output pixel `(r, c)` is
the source pixel `(N-1-c, r)`, so every output pixel is a copy of a source pixel.  On
a 2x2 raster `(0,0)` goes to `(0,1)`, `(0,1)` to `(1,1)`, `(1,0)` to `(0,0)` and
`(1,1)` to `(1,0)`. -/
theorem rotateRight_pixels :
    (∀ (N : Nat) (source : Image N N), ∃ out, rotateRight source = some out ∧
      (∀ (i j : Fin N) (k : Fin NUM_CHANNELS),
        out.data j ⟨N - 1 - i.val, by omega⟩ k = source.data i j k) ∧
      (∀ (r c : Fin N) (k : Fin NUM_CHANNELS),
        out.data r c k = source.data ⟨N - 1 - c.val, by omega⟩ r k)) ∧
    (∀ source : Image 2 2, ∃ out, rotateRight source = some out ∧
      ∀ k : Fin NUM_CHANNELS,
        out.data 0 1 k = source.data 0 0 k ∧ out.data 1 1 k = source.data 0 1 k ∧
        out.data 0 0 k = source.data 1 0 k ∧ out.data 1 0 k = source.data 1 1 k) := by
  constructor
  · intro N source
    obtain ⟨out, hout, hp⟩ := rotateRight_spec source
    refine ⟨out, hout, fun i j k => ?_, hp⟩
    rw [hp]
    congr 1
    apply Fin.ext
    simp only
    omega
  · intro source
    obtain ⟨out, hout, hp⟩ := rotateRight_spec source
    exact ⟨out, hout, fun k => ⟨hp 0 1 k, hp 1 1 k, hp 0 0 k, hp 1 0 k⟩⟩

/-- C5: four successive applications of `rotateRight` to a square raster return the
raster itself. -/
theorem rotateRight_four {N : Nat} (s : Image N N) :
    (((rotateRight s).bind rotateRight).bind rotateRight).bind rotateRight = some s := by
  obtain ⟨s1, h1, p1⟩ := rotateRight_spec s
  obtain ⟨s2, h2, p2⟩ := rotateRight_spec s1
  obtain ⟨s3, h3, p3⟩ := rotateRight_spec s2
  obtain ⟨s4, h4, p4⟩ := rotateRight_spec s3
  simp only [h1, h2, h3, h4, Option.some_bind]
  congr 1
  apply Image.ext
  funext a b c
  rw [p4, p3, p2, p1]
  congr 1 <;> apply Fin.ext <;> simp only <;> omega

/-- C6: a red shift by 0 returns the source raster itself. -/
theorem redShift_zero {H W : Nat} (source : Image H W) :
    redShift source 0 = some source := by
  obtain ⟨out, hout, hp⟩ := redShift_spec source 0
  rw [hout]
  congr 1
  apply Image.ext
  funext a b c
  have hred : out.data a b 0 = source.data a b 0 := by
    have hlt := (source.data a b 0).isLt
    rw [(hp a b).1, wrapInt_of_bounds (by omega) (by omega)]
    apply Fin.ext
    have e := clamp_intCast_val (((source.data a b 0).val : Int) + 0)
    omega
  have hc := c.isLt
  obtain ⟨cv, hcv⟩ := c
  match cv, hcv with
  | 0, _ => exact hred
  | 1, _ => exact (hp a b).2.1
  | 2, _ => exact (hp a b).2.2

/-! ## Claims about `clamp`, `makeAqua` and `makeGradient` -/

/-- C7: for every (finite) input `x`, `clamp x` lies in [0, 255]: the value handed to
the cast to `byte` already lies in that range, so the cast keeps it as it is; and
`clamp` returns every integer of [0, 255] unchanged. -/
theorem clamp_range_fix :
    (∀ x : ℚ, 0 ≤ (clamp x).val ∧ (clamp x).val ≤ 255 ∧
      0 ≤ truncToInt (max (min x 255) 0) ∧ truncToInt (max (min x 255) 0) ≤ 255 ∧
      ((clamp x).val : Int) = truncToInt (max (min x 255) 0)) ∧
    (∀ n : Int, 0 ≤ n → n ≤ 255 → ((clamp (n : ℚ)).val : Int) = n) := by
  constructor
  · intro x
    have h0 : (0 : ℚ) ≤ max (min x 255) 0 := le_max_right _ _
    have h1 : max (min x 255) 0 ≤ (255 : ℚ) := max_le (min_le_right _ _) (by norm_num)
    have ht : truncToInt (max (min x 255) 0) = ⌊max (min x 255) 0⌋ := by
      unfold truncToInt
      rw [if_pos h0]
    have hb := floor_bounds_of_mem h0 h1
    have hlt := (clamp x).isLt
    refine ⟨Nat.zero_le _, by omega, by omega, by omega, ?_⟩
    unfold clamp
    exact toByte_val_of_bounds (by omega) (by omega)
  · intro n h0 h1
    rw [clamp_intCast_val]
    omega

/-- C7 (witness): `clamp` leaves the integer 200 unchanged. -/
theorem clamp_range_fix_witness : ((clamp ((200 : Int) : ℚ)).val : Int) = 200 :=
  clamp_range_fix.2 200 (by decide) (by decide)

/-- C8: `clamp` is the saturating truncation: 255 above 255, 0 below 0, and between
0 and 255 the input truncated toward zero, which is its floor there.  It is a total
function. -/
theorem clamp_saturating (x : ℚ) :
    (255 < x → clamp x = 255) ∧ (x < 0 → clamp x = 0) ∧
    (0 ≤ x → x ≤ 255 → ((clamp x).val : Int) = truncToInt x ∧ truncToInt x = ⌊x⌋) := by
  refine ⟨clamp_of_gt, clamp_of_neg, fun h0 h1 => ?_⟩
  have ht : truncToInt x = ⌊x⌋ := by
    unfold truncToInt
    rw [if_pos h0]
  exact ⟨by rw [ht]; exact clamp_of_mem h0 h1, ht⟩

/-- C8 (witness): `clamp 300 = 255`, `clamp (-3) = 0` and `clamp 3.5 = 3`. -/
theorem clamp_saturating_witness :
    clamp 300 = 255 ∧ clamp (-3) = 0 ∧ ((clamp (7 / 2)).val : Int) = 3 := by
  refine ⟨(clamp_saturating 300).1 (by norm_num), (clamp_saturating (-3)).2.1 (by norm_num), ?_⟩
  obtain ⟨hv, hf⟩ := (clamp_saturating (7 / 2)).2.2 (by norm_num) (by norm_num)
  rw [hv, hf, Int.floor_eq_iff]
  norm_num

/-- C9: `makeAqua` returns a raster in which every pixel has RED = 0, GREEN = 128 and
BLUE = 255. -/
theorem makeAqua_pixels (H W : Nat) :
    ∃ out, makeAqua H W = some out ∧
      ∀ (i : Fin H) (j : Fin W),
        out.get? i.val j.val RED = some 0 ∧ out.get? i.val j.val GREEN = some 128 ∧
        out.get? i.val j.val BLUE = some 255 := by
  obtain ⟨out, hout, hp⟩ := makeAqua_spec H W
  refine ⟨out, hout, fun i j => ⟨?_, ?_, ?_⟩⟩
  · rw [get?_of_eq out i j 0 i.val j.val RED rfl rfl rfl, (hp i j).1]
  · rw [get?_of_eq out i j 1 i.val j.val GREEN rfl rfl rfl, (hp i j).2.1]
  · rw [get?_of_eq out i j 2 i.val j.val BLUE rfl rfl rfl, (hp i j).2.2]

/-- C10 (counterexample): with 129 rows, row 128 of the gradient holds 0 in channel
0, whereas `clamp (128 * 2)` is 255. -/
theorem makeGradient_row128 :
    ∃ out, makeGradient 129 1 = some out ∧
      (out.data ⟨128, by decide⟩ 0 0).val = 0 ∧
      (clamp (((128 : Int) * 2 : Int) : ℚ)).val = 255 := by
  obtain ⟨out, hout, hp⟩ := makeGradient_spec 129 1
  refine ⟨out, hout, ?_, ?_⟩
  · rw [hp, gradient_byte]
    rfl
  · rw [clamp_intCast]
    decide

/-- C10 (amended): `makeGradient` returns a raster in which every sample of a row
`i ≤ 127` equals `clamp (i * 2)`; in every row the three channels of a pixel are equal,
and row 0 is black. -/
theorem makeGradient_rows (H W : Nat) :
    ∃ out, makeGradient H W = some out ∧
      ∀ (i : Fin H) (j : Fin W) (k : Fin NUM_CHANNELS),
        (i.val ≤ 127 → out.data i j k = clamp ((((i.val : Int) * 2 : Int)) : ℚ)) ∧
        out.data i j k = out.data i j 0 ∧
        (i.val = 0 → out.data i j k = 0) := by
  obtain ⟨out, hout, hp⟩ := makeGradient_spec H W
  refine ⟨out, hout, fun i j k => ⟨fun hi => ?_, by rw [hp, hp], fun hi => ?_⟩⟩
  · apply Fin.ext
    have e1 := gradient_byte i.val
    have e2 := clamp_intCast_val ((i.val : Int) * 2)
    rw [hp]
    omega
  · apply Fin.ext
    have e1 := gradient_byte i.val
    rw [hp, e1, hi]
    rfl

/-- C10 (witness): in a 3x2 gradient, row 2 holds `clamp (2 * 2)`. -/
theorem makeGradient_rows_witness :
    ∃ out, makeGradient 3 2 = some out ∧ out.data 2 1 1 = clamp (((2 : Int) * 2 : Int) : ℚ) := by
  obtain ⟨out, hout, hp⟩ := makeGradient_rows 3 2
  exact ⟨out, hout, (hp 2 1 1).1 (by decide)⟩

/-! ## Loops that run into an access outside the grid -/

/-- A run of iterations fails as soon as one of its iterations fails in every state. -/
theorem loopFrom_none {σ : Type} (body : Int → σ → Option σ) :
    ∀ (n : Nat) (i : Int) (s : σ) (m : Int), i ≤ m → m < i + n → (∀ t, body m t = none) →
      loopFrom body n i s = none
  | 0, i, s, m, h0, h1, _ => by simp at h1; omega
  | n + 1, i, s, m, h0, h1, hm => by
    simp only [loopFrom]
    by_cases e : m = i
    · subst e
      rw [hm s]
      rfl
    · cases hb : body i s with
      | none => rfl
      | some s1 =>
        exact loopFrom_none body n (i + 1) s1 m (by omega) (by push_cast at h1; omega) hm

/-- A `for` loop fails when one of its iterations fails in every state. -/
theorem forLoop_none {σ : Type} (lo hi : Int) (body : Int → σ → Option σ) (s : σ) (m : Int)
    (h0 : lo ≤ m) (h1 : m < hi) (hm : ∀ t, body m t = none) : forLoop lo hi body s = none :=
  loopFrom_none body _ lo s m h0 (by omega) hm

/-- The iteration `(i, j)` of `rotateRight` fails when its write position is outside
the grid. -/
theorem rotateRight_body_none {H W : Nat} (source : Image H W) (i j : Int)
    (h : ¬ inGrid H W j ((W : Int) - 1 - i) 0) (t : Image H W) :
    forLoop 0 NUM_CHANNELS (fun k newImage => do
        let newRow : Int := j
        let newCol : Int := ((W : Int) - 1) - i
        let v ← source.get? i j k
        newImage.set? newRow newCol k v) t = none := by
  apply forLoop_none 0 NUM_CHANNELS _ t 0 le_rfl (by decide)
  intro t'
  cases hg : source.get? i j 0 with
  | none => simp [hg]
  | some v => simp [hg, Image.set?, h]

/-- On a raster that is not square, with at least one row and one column,
`rotateRight` runs into a write outside the grid. -/
theorem rotateRight_none {H W : Nat} (source : Image H W) (hH : 1 ≤ H) (hW : 1 ≤ W)
    (hne : W ≠ H) : rotateRight source = none := by
  unfold rotateRight
  rcases Nat.lt_or_gt_of_ne hne with hlt | hgt
  · -- more rows than columns: row `W` is written to column `-1`
    apply forLoop_none 0 H _ _ (W : Int) (by omega) (by omega)
    intro t
    apply forLoop_none 0 W _ _ 0 le_rfl (by omega)
    intro t'
    exact rotateRight_body_none source W 0 (by unfold inGrid; omega) t'
  · -- more columns than rows: column `H` is written to row `H`
    apply forLoop_none 0 H _ _ 0 le_rfl (by omega)
    intro t
    apply forLoop_none 0 W _ _ (H : Int) (by omega) (by omega)
    intro t'
    exact rotateRight_body_none source 0 H (by unfold inGrid; omega) t'

/-! ## Claims about uniform rasters, index safety and arithmetic ranges -/

/-- C11: on a raster whose samples all equal a constant `C`, `blur` returns a raster
holding `C` in every channel of every interior pixel and 0 on the border. -/
theorem blur_uniform {H W : Nat} (source : Image H W) (C : byte)
    (h : ∀ (a : Fin H) (b : Fin W) (c : Fin NUM_CHANNELS), source.data a b c = C) :
    ∃ out, blur source = some out ∧
      ∀ (i : Fin H) (j : Fin W) (k : Fin NUM_CHANNELS),
        ((1 ≤ i.val ∧ i.val + 1 < H ∧ 1 ≤ j.val ∧ j.val + 1 < W) → out.data i j k = C) ∧
        (¬ (1 ≤ i.val ∧ i.val + 1 < H ∧ 1 ≤ j.val ∧ j.val + 1 < W) → out.data i j k = 0) := by
  obtain ⟨out, hout, hp⟩ := blur_spec source
  refine ⟨out, hout, fun i j k => ⟨fun hin => ?_, (hp i j k).2⟩⟩
  apply Fin.ext
  rw [(hp i j k).1 hin]
  simp only [h]
  omega

/-- C11 (witness): on the 3x3 all-white raster the single interior pixel of the
blurred raster is 255 in every channel and the eight border pixels are black. -/
theorem blur_uniform_witness :
    ∃ out, blur white3 = some out ∧
      ∀ (i j : Fin 3) (k : Fin NUM_CHANNELS),
        out.data i j k = if i = 1 ∧ j = 1 then 255 else 0 := by
  obtain ⟨out, hout, hp⟩ := blur_uniform white3 255 (fun _ _ _ => rfl)
  refine ⟨out, hout, fun i j k => ?_⟩
  by_cases hc : i = 1 ∧ j = 1
  · rw [if_pos hc]
    obtain ⟨rfl, rfl⟩ := hc
    exact (hp 1 1 k).1 (by decide)
  · rw [if_neg hc]
    refine (hp i j k).2 (fun hin => hc ⟨Fin.ext ?_, Fin.ext ?_⟩)
    · show i.val = 1
      omega
    · show j.val = 1
      omega

/-- C12: the indexing of `rotateRight` is safe exactly on square rasters.  On a square
raster every write position `(j, IMG_WIDTH - 1 - i)` of the loop range is inside the
grid and `rotateRight` returns a raster.  On a raster with at least one row and one
column whose width differs from its height some write position of the loop range is
outside the grid, and `rotateRight` runs into it. -/
theorem rotateRight_safe_iff_square :
    (∀ (N : Nat) (source : Image N N),
      (∀ i j k : Int, 0 ≤ i → i < N → 0 ≤ j → j < N → 0 ≤ k → k < NUM_CHANNELS →
        inGrid N N j ((N : Int) - 1 - i) k) ∧
      ∃ out, rotateRight source = some out) ∧
    (∀ (H W : Nat) (source : Image H W), 1 ≤ H → 1 ≤ W → W ≠ H →
      (∃ i j : Int, 0 ≤ i ∧ i < H ∧ 0 ≤ j ∧ j < W ∧
        ∀ k : Int, ¬ inGrid H W j ((W : Int) - 1 - i) k) ∧
      rotateRight source = none) := by
  constructor
  · intro N source
    refine ⟨fun i j k hi0 hi1 hj0 hj1 hk0 hk1 => by unfold inGrid; omega, ?_⟩
    obtain ⟨out, hout, _⟩ := rotateRight_spec source
    exact ⟨out, hout⟩
  · intro H W source hH hW hne
    refine ⟨?_, rotateRight_none source hH hW hne⟩
    rcases Nat.lt_or_gt_of_ne hne with hlt | hgt
    · exact ⟨W, 0, by omega, by omega, le_rfl, by omega, fun k => by unfold inGrid; omega⟩
    · exact ⟨0, H, le_rfl, by omega, by omega, by omega, fun k => by unfold inGrid; omega⟩

/-- C12 (witness): `rotateRight` runs outside the grid on a 2x3 and on a 3x2 raster,
and returns a raster on the 2x2 marker raster. -/
theorem rotateRight_safe_iff_square_witness :
    rotateRight wide23 = none ∧ rotateRight tall32 = none ∧
      ∃ out, rotateRight marked2 = some out :=
  ⟨(rotateRight_safe_iff_square.2 2 3 wide23 (by decide) (by decide) (by decide)).2,
   (rotateRight_safe_iff_square.2 3 2 tall32 (by decide) (by decide) (by decide)).2,
   (rotateRight_safe_iff_square.1 2 marked2).2⟩

/-- Where the `int` sum cannot overflow, extreme shifts saturate: a shift from 255 to
2147483392 makes every RED sample 255, and a shift from -2147483648 to -255 makes
every RED sample 0. -/
theorem redShift_saturates {H W : Nat} (source : Image H W) (shiftAmount : Int) :
    ∃ out, redShift source shiftAmount = some out ∧
      ∀ (i : Fin H) (j : Fin W),
        (255 ≤ shiftAmount → shiftAmount ≤ 2147483392 → out.data i j 0 = 255) ∧
        (-2147483648 ≤ shiftAmount → shiftAmount ≤ -255 → out.data i j 0 = 0) := by
  obtain ⟨out, hout, hp⟩ := redShift_spec source shiftAmount
  refine ⟨out, hout, fun i j => ⟨fun h0 h1 => ?_, fun h0 h1 => ?_⟩⟩
  · have hlt := (source.data i j 0).isLt
    rw [(hp i j).1, wrapInt_of_bounds (by omega) (by omega)]
    apply Fin.ext
    have e := clamp_intCast_val (((source.data i j 0).val : Int) + shiftAmount)
    have e255 : ((255 : byte).val : Int) = 255 := rfl
    omega
  · have hlt := (source.data i j 0).isLt
    rw [(hp i j).1, wrapInt_of_bounds (by omega) (by omega)]
    apply Fin.ext
    have e := clamp_intCast_val (((source.data i j 0).val : Int) + shiftAmount)
    have e0 : ((0 : byte).val : Int) = 0 := rfl
    omega

/-- C13 (failing input): on the 2x2 marker raster, whose RED samples are 10, 20, 30
and 40, the shift 2147483647 is at least 255 and representable as a 32-bit `int`,
yet every RED sample of the result is 0, not 255: the `int` sum wraps below zero
before `clamp` sees it. -/
theorem redShift_extreme_shift :
    ∃ out, redShift marked2 2147483647 = some out ∧
      ∀ i j : Fin 2, 1 ≤ (marked2.data i j 0).val ∧ (out.data i j 0).val = 0 := by
  obtain ⟨out, hout, hp⟩ := redShift_spec marked2 2147483647
  have hpos : ∀ i j : Fin 2, 1 ≤ (marked2.data i j 0).val := by decide
  refine ⟨out, hout, fun i j => ⟨hpos i j, ?_⟩⟩
  have hlt := (marked2.data i j 0).isLt
  have h1 := hpos i j
  have e := clamp_intCast_val (wrapInt (((marked2.data i j 0).val : Int) + 2147483647))
  rw [(hp i j).1]
  unfold wrapInt at e
  unfold wrapInt
  omega

/-- C14: `makeGradient` returns a raster whose sample in row `i` is `2 * i` modulo 256
in every column and channel.  With at most 128 rows every sample is `2 * i` itself, at
most 254, and strictly increasing in the row index; with more than 128 rows, row 128
holds 0. -/
theorem makeGradient_mod256 (H W : Nat) :
    ∃ out, makeGradient H W = some out ∧
      (∀ (i : Fin H) (j : Fin W) (k : Fin NUM_CHANNELS),
        (out.data i j k).val = (2 * i.val) % 256) ∧
      (H ≤ 128 →
        (∀ (i : Fin H) (j : Fin W) (k : Fin NUM_CHANNELS),
          (out.data i j k).val = 2 * i.val ∧ (out.data i j k).val ≤ 254) ∧
        (∀ (i i' : Fin H) (j j' : Fin W) (k k' : Fin NUM_CHANNELS),
          i.val < i'.val → (out.data i j k).val < (out.data i' j' k').val)) ∧
      (∀ h : 128 < H, ∀ (j : Fin W) (k : Fin NUM_CHANNELS),
        (out.data ⟨128, h⟩ j k).val = 0 ∧ out.data ⟨128, h⟩ j k ≠ 255) := by
  obtain ⟨out, hout, hp⟩ := makeGradient_spec H W
  have hv : ∀ (i : Fin H) (j : Fin W) (k : Fin NUM_CHANNELS),
      (out.data i j k).val = (2 * i.val) % 256 := by
    intro i j k
    rw [hp]
    exact gradient_byte i.val
  refine ⟨out, hout, hv, fun hH => ⟨fun i j k => ?_, fun i i' j j' k k' hlt => ?_⟩,
    fun h j k => ?_⟩
  · have := hv i j k
    omega
  · have := hv i j k
    have := hv i' j' k'
    omega
  · have h0 : (out.data ⟨128, h⟩ j k).val = 0 := by
      have e := hv ⟨128, h⟩ j k
      simp only at e
      omega
    refine ⟨h0, fun e => ?_⟩
    rw [e] at h0
    exact absurd h0 (by decide)

/-- C14 (witness): a 3x1 gradient holds 0, 2, 4 down its rows, and row 128 of a
129x1 gradient holds 0. -/
theorem makeGradient_mod256_witness :
    (∃ out, makeGradient 3 1 = some out ∧
      (out.data 0 0 0).val = 0 ∧ (out.data 1 0 0).val = 2 ∧ (out.data 2 0 0).val = 4) ∧
    (∃ out, makeGradient 129 1 = some out ∧ (out.data ⟨128, by decide⟩ 0 0).val = 0) := by
  obtain ⟨o3, h3, _, hsmall, _⟩ := makeGradient_mod256 3 1
  obtain ⟨o129, h129, _, _, hbig⟩ := makeGradient_mod256 129 1
  exact ⟨⟨o3, h3, ((hsmall (by decide)).1 0 0 0).1, ((hsmall (by decide)).1 1 0 0).1,
    ((hsmall (by decide)).1 2 0 0).1⟩, ⟨o129, h129, (hbig (by decide) 0 0).1⟩⟩

/-- A read inside the grid returns a sample. -/
theorem get?_isSome_of_inGrid {H W : Nat} (img : Image H W) {i j k : Int}
    (h : inGrid H W i j k) : (img.get? i j k).isSome = true := by
  simp [Image.get?, h]

/-- C15: for all dimensions, every read of `blur` in its loop range (the pixel and
its four neighbours, for `1 ≤ i < IMG_HEIGHT - 1`, `1 ≤ j < IMG_WIDTH - 1`) is at a
position inside the grid and returns a sample, so `blur` always returns a raster;
below 3 rows or 3 columns nothing is written and the result is the black raster. -/
theorem blur_reads_inside {H W : Nat} (source : Image H W) :
    (∀ i j k : Int, 1 ≤ i → i < (H : Int) - 1 → 1 ≤ j → j < (W : Int) - 1 →
        0 ≤ k → k < (NUM_CHANNELS : Int) →
      (inGrid H W i j k ∧ inGrid H W (i - 1) j k ∧ inGrid H W (i + 1) j k ∧
        inGrid H W i (j - 1) k ∧ inGrid H W i (j + 1) k) ∧
      ((source.get? i j k).isSome = true ∧ (source.get? (i - 1) j k).isSome = true ∧
        (source.get? (i + 1) j k).isSome = true ∧ (source.get? i (j - 1) k).isSome = true ∧
        (source.get? i (j + 1) k).isSome = true)) ∧
    (∃ out, blur source = some out) ∧
    ((H < 3 ∨ W < 3) → blur source = some (Image.zero H W)) := by
  refine ⟨fun i j k hi0 hi1 hj0 hj1 hk0 hk1 => ?_, ?_, fun hsmall => ?_⟩
  · have g0 : inGrid H W i j k := by unfold inGrid; omega
    have g1 : inGrid H W (i - 1) j k := by unfold inGrid; omega
    have g2 : inGrid H W (i + 1) j k := by unfold inGrid; omega
    have g3 : inGrid H W i (j - 1) k := by unfold inGrid; omega
    have g4 : inGrid H W i (j + 1) k := by unfold inGrid; omega
    exact ⟨⟨g0, g1, g2, g3, g4⟩, get?_isSome_of_inGrid source g0,
      get?_isSome_of_inGrid source g1, get?_isSome_of_inGrid source g2,
      get?_isSome_of_inGrid source g3, get?_isSome_of_inGrid source g4⟩
  · obtain ⟨out, hout, _⟩ := blur_spec source
    exact ⟨out, hout⟩
  · obtain ⟨out, hout, hp⟩ := blur_spec source
    rw [hout]
    congr 1
    apply Image.ext
    funext a b c
    rw [(hp a b c).2 (by omega)]
    rfl

/-- C15 (witness): the reads of the single iteration on a 3x3 raster are inside the
grid, and on a raster of 2 rows `blur` returns the black raster. -/
theorem blur_reads_inside_witness :
    (inGrid 3 3 1 1 0 ∧ inGrid 3 3 (1 - 1) 1 0 ∧ inGrid 3 3 (1 + 1) 1 0 ∧
      inGrid 3 3 1 (1 - 1) 0 ∧ inGrid 3 3 1 (1 + 1) 0) ∧
    blur wide23 = some (Image.zero 2 3) :=
  ⟨((blur_reads_inside ramp3).1 1 1 0 (by decide) (by decide) (by decide) (by decide)
      (by decide) (by decide)).1,
   (blur_reads_inside wide23).2.2 (Or.inl (by decide))⟩

/-- For any five samples, the `int` sum of `blur` is the exact sum, its quotient by 5
lies in [0, 255], and converting the quotient to a byte keeps it: it is the floor of
the exact sum over 5. -/
theorem five_sample_quotient (x0 x1 x2 x3 x4 : byte) :
    wrapInt (wrapInt (wrapInt (wrapInt ((x0.val : Int) + x1.val) + x2.val) + x3.val) + x4.val)
      = (x0.val : Int) + x1.val + x2.val + x3.val + x4.val ∧
    0 ≤ Int.tdiv ((x0.val : Int) + x1.val + x2.val + x3.val + x4.val) 5 ∧
    Int.tdiv ((x0.val : Int) + x1.val + x2.val + x3.val + x4.val) 5 ≤ 255 ∧
    ((toByte (Int.tdiv (wrapInt (wrapInt (wrapInt (wrapInt ((x0.val : Int) + x1.val) + x2.val)
      + x3.val) + x4.val)) 5)).val : Int)
      = Int.tdiv ((x0.val : Int) + x1.val + x2.val + x3.val + x4.val) 5 ∧
    Int.tdiv ((x0.val : Int) + x1.val + x2.val + x3.val + x4.val) 5
      = ((x0.val + x1.val + x2.val + x3.val + x4.val) / 5 : Nat) := by
  have h0 := x0.isLt; have h1 := x1.isLt; have h2 := x2.isLt
  have h3 := x3.isLt; have h4 := x4.isLt
  have hw : wrapInt (wrapInt (wrapInt (wrapInt ((x0.val : Int) + x1.val) + x2.val) + x3.val)
      + x4.val) = (x0.val : Int) + x1.val + x2.val + x3.val + x4.val := by
    rw [wrapInt_of_bounds (x := (x0.val : Int) + x1.val) (by omega) (by omega),
      wrapInt_of_bounds (x := (x0.val : Int) + x1.val + x2.val) (by omega) (by omega),
      wrapInt_of_bounds (x := (x0.val : Int) + x1.val + x2.val + x3.val) (by omega) (by omega),
      wrapInt_of_bounds (x := (x0.val : Int) + x1.val + x2.val + x3.val + x4.val)
        (by omega) (by omega)]
  have hd : Int.tdiv ((x0.val : Int) + x1.val + x2.val + x3.val + x4.val) 5
      = ((x0.val : Int) + x1.val + x2.val + x3.val + x4.val) / 5 :=
    Int.tdiv_eq_ediv (by omega) (by omega)
  have ha := avg_byte x0 x1 x2 x3 x4
  refine ⟨hw, ?_, ?_, ?_, ?_⟩
  · rw [hd]; omega
  · rw [hd]; omega
  · rw [ha, hd]; push_cast; omega
  · rw [hd]; push_cast; omega

/-- C16: at every interior pixel and channel, the byte `blur` stores is the quotient by
5 of the `int` sum of the five source samples (the pixel, above, below, left, right):
the sum is computed without wrapping, the quotient lies in [0, 255], and the stored
value equals the exact integer quotient, so the store into `avgValue` never wraps
modulo 256; and for any five samples the quotient lies in [0, 255] and its conversion
to a byte keeps it. -/
theorem blur_average_fits {H W : Nat} (source : Image H W) (i : Fin H) (j : Fin W)
    (k : Fin NUM_CHANNELS)
    (h : 1 ≤ i.val ∧ i.val + 1 < H ∧ 1 ≤ j.val ∧ j.val + 1 < W) :
    ∃ out, blur source = some out ∧
      out.data i j k = toByte (Int.tdiv (wrapInt (wrapInt (wrapInt (wrapInt
          (((source.data i j k).val : Int) + (source.data ⟨i.val - 1, by omega⟩ j k).val)
          + (source.data ⟨i.val + 1, by omega⟩ j k).val)
          + (source.data i ⟨j.val - 1, by omega⟩ k).val)
          + (source.data i ⟨j.val + 1, by omega⟩ k).val)) 5) ∧
      wrapInt (wrapInt (wrapInt (wrapInt
          (((source.data i j k).val : Int) + (source.data ⟨i.val - 1, by omega⟩ j k).val)
          + (source.data ⟨i.val + 1, by omega⟩ j k).val)
          + (source.data i ⟨j.val - 1, by omega⟩ k).val)
          + (source.data i ⟨j.val + 1, by omega⟩ k).val)
        = ((source.data i j k).val : Int) + (source.data ⟨i.val - 1, by omega⟩ j k).val
          + (source.data ⟨i.val + 1, by omega⟩ j k).val
          + (source.data i ⟨j.val - 1, by omega⟩ k).val
          + (source.data i ⟨j.val + 1, by omega⟩ k).val ∧
      ((out.data i j k).val : Int)
        = Int.tdiv (((source.data i j k).val : Int) + (source.data ⟨i.val - 1, by omega⟩ j k).val
          + (source.data ⟨i.val + 1, by omega⟩ j k).val
          + (source.data i ⟨j.val - 1, by omega⟩ k).val
          + (source.data i ⟨j.val + 1, by omega⟩ k).val) 5 ∧
      0 ≤ Int.tdiv (((source.data i j k).val : Int) + (source.data ⟨i.val - 1, by omega⟩ j k).val
          + (source.data ⟨i.val + 1, by omega⟩ j k).val
          + (source.data i ⟨j.val - 1, by omega⟩ k).val
          + (source.data i ⟨j.val + 1, by omega⟩ k).val) 5 ∧
      Int.tdiv (((source.data i j k).val : Int) + (source.data ⟨i.val - 1, by omega⟩ j k).val
          + (source.data ⟨i.val + 1, by omega⟩ j k).val
          + (source.data i ⟨j.val - 1, by omega⟩ k).val
          + (source.data i ⟨j.val + 1, by omega⟩ k).val) 5 ≤ 255 ∧
      ∀ x0 x1 x2 x3 x4 : byte,
        0 ≤ Int.tdiv ((x0.val : Int) + x1.val + x2.val + x3.val + x4.val) 5 ∧
        Int.tdiv ((x0.val : Int) + x1.val + x2.val + x3.val + x4.val) 5 ≤ 255 ∧
        ((toByte (Int.tdiv (wrapInt (wrapInt (wrapInt (wrapInt ((x0.val : Int) + x1.val)
          + x2.val) + x3.val) + x4.val)) 5)).val : Int)
          = Int.tdiv ((x0.val : Int) + x1.val + x2.val + x3.val + x4.val) 5 := by
  obtain ⟨out, hout, hp⟩ := blur_spec source
  have hv := (hp i j k).1 h
  have hq := five_sample_quotient (source.data i j k) (source.data ⟨i.val - 1, by omega⟩ j k)
    (source.data ⟨i.val + 1, by omega⟩ j k) (source.data i ⟨j.val - 1, by omega⟩ k)
    (source.data i ⟨j.val + 1, by omega⟩ k)
  have hstored : out.data i j k = toByte (Int.tdiv (wrapInt (wrapInt (wrapInt (wrapInt
      (((source.data i j k).val : Int) + (source.data ⟨i.val - 1, by omega⟩ j k).val)
      + (source.data ⟨i.val + 1, by omega⟩ j k).val)
      + (source.data i ⟨j.val - 1, by omega⟩ k).val)
      + (source.data i ⟨j.val + 1, by omega⟩ k).val)) 5) := by
    apply Fin.ext
    rw [avg_byte]
    exact hv
  have hval : ((out.data i j k).val : Int)
      = Int.tdiv (((source.data i j k).val : Int) + (source.data ⟨i.val - 1, by omega⟩ j k).val
        + (source.data ⟨i.val + 1, by omega⟩ j k).val
        + (source.data i ⟨j.val - 1, by omega⟩ k).val
        + (source.data i ⟨j.val + 1, by omega⟩ k).val) 5 := by
    have h5 := hq.2.2.2.2
    omega
  exact ⟨out, hout, hstored, hq.1, hval, hq.2.1, hq.2.2.1, fun x0 x1 x2 x3 x4 =>
    ⟨(five_sample_quotient x0 x1 x2 x3 x4).2.1, (five_sample_quotient x0 x1 x2 x3 x4).2.2.1,
      (five_sample_quotient x0 x1 x2 x3 x4).2.2.2.1⟩⟩

/-- C16 (witness): the centre of the blurred 3x3 ramp raster, channel 0, stores 80,
the exact quotient of `80 + 20 + 140 + 60 + 100 = 400` by 5. -/
theorem blur_average_fits_witness :
    ∃ out, blur ramp3 = some out ∧ ((out.data 1 1 0).val : Int) = 80 := by
  obtain ⟨out, hout, _, _, hval, _⟩ := blur_average_fits ramp3 1 1 0 (by decide)
  exact ⟨out, hout, hval.trans (by decide)⟩

/-- C17: for every interior pixel and channel, the blurred sample lies between the
minimum and the maximum of the five source samples it averages; hence no sample of
`blur source` exceeds a bound that holds for every sample of the source. -/
theorem blur_between {H W : Nat} (source : Image H W) :
    ∃ out, blur source = some out ∧
      (∀ (i : Fin H) (j : Fin W) (k : Fin NUM_CHANNELS)
          (h : 1 ≤ i.val ∧ i.val + 1 < H ∧ 1 ≤ j.val ∧ j.val + 1 < W),
        min (min (min (min (source.data i j k).val (source.data ⟨i.val - 1, by omega⟩ j k).val)
            (source.data ⟨i.val + 1, by omega⟩ j k).val)
            (source.data i ⟨j.val - 1, by omega⟩ k).val)
            (source.data i ⟨j.val + 1, by omega⟩ k).val
          ≤ (out.data i j k).val ∧
        (out.data i j k).val ≤
          max (max (max (max (source.data i j k).val (source.data ⟨i.val - 1, by omega⟩ j k).val)
            (source.data ⟨i.val + 1, by omega⟩ j k).val)
            (source.data i ⟨j.val - 1, by omega⟩ k).val)
            (source.data i ⟨j.val + 1, by omega⟩ k).val) ∧
      (∀ M : Nat, (∀ (a : Fin H) (b : Fin W) (c : Fin NUM_CHANNELS),
          (source.data a b c).val ≤ M) →
        ∀ (i : Fin H) (j : Fin W) (k : Fin NUM_CHANNELS), (out.data i j k).val ≤ M) := by
  obtain ⟨out, hout, hp⟩ := blur_spec source
  refine ⟨out, hout, fun i j k h => ?_, fun M hM i j k => ?_⟩
  · rw [(hp i j k).1 h]
    omega
  · by_cases h : 1 ≤ i.val ∧ i.val + 1 < H ∧ 1 ≤ j.val ∧ j.val + 1 < W
    · rw [(hp i j k).1 h]
      have m0 := hM i j k
      have m1 := hM ⟨i.val - 1, by omega⟩ j k
      have m2 := hM ⟨i.val + 1, by omega⟩ j k
      have m3 := hM i ⟨j.val - 1, by omega⟩ k
      have m4 := hM i ⟨j.val + 1, by omega⟩ k
      omega
    · rw [(hp i j k).2 h]
      exact Nat.zero_le M

/-- C17 (witness): the centre sample of the blurred 3x3 ramp raster, channel 0, lies
between 20 and 140, the least and the largest of the five averaged samples, and no
sample of the blurred raster exceeds 162, the largest sample of the source. -/
theorem blur_between_witness :
    ∃ out, blur ramp3 = some out ∧
      20 ≤ (out.data 1 1 0).val ∧ (out.data 1 1 0).val ≤ 140 ∧
      ∀ (i j : Fin 3) (k : Fin NUM_CHANNELS), (out.data i j k).val ≤ 162 := by
  obtain ⟨out, hout, hb, hM⟩ := blur_between ramp3
  have h := hb 1 1 0 (by decide)
  exact ⟨out, hout, le_trans (by decide) h.1, le_trans h.2 (by decide),
    hM 162 (by decide)⟩

/-- The RED sample written by `redShift` when the `int` sum does not overflow. -/
theorem clamp_wrapInt_val (x : Int) (h0 : -2147483648 ≤ x) (h1 : x ≤ 2147483647) :
    ((clamp ((wrapInt x : Int) : ℚ)).val : Int) = max (min x 255) 0 := by
  rw [wrapInt_of_bounds h0 h1]
  exact clamp_intCast_val x

/-- C18 (failing input): on the all-white 3x3 raster (RED = 255) the shifts
2147483393 and 1 are both non-negative and so is their `int` sum 2147483394, yet
shifting by one after the other gives RED = 1 while shifting by the sum gives
RED = 0. -/
theorem redShift_compose_wraps :
    ∃ out1 out2, (redShift white3 2147483393).bind (fun s => redShift s 1) = some out1 ∧
      redShift white3 (2147483393 + 1) = some out2 ∧
      (out1.data 0 0 0).val = 1 ∧ (out2.data 0 0 0).val = 0 := by
  obtain ⟨s1, h1, p1⟩ := redShift_spec white3 2147483393
  obtain ⟨s2, h2, p2⟩ := redShift_spec s1 1
  obtain ⟨s3, h3, p3⟩ := redShift_spec white3 (2147483393 + 1)
  refine ⟨s2, s3, by simp [h1, h2], h3, ?_, ?_⟩
  · have hw : ((white3.data 0 0 0).val : Int) = 255 := rfl
    have e1 := clamp_intCast_val (wrapInt (((white3.data 0 0 0).val : Int) + 2147483393))
    rw [← (p1 0 0).1] at e1
    have e2 := clamp_intCast_val (wrapInt (((s1.data 0 0 0).val : Int) + 1))
    rw [← (p2 0 0).1] at e2
    unfold wrapInt at e1 e2
    omega
  · have hw : ((white3.data 0 0 0).val : Int) = 255 := rfl
    have e3 := clamp_intCast_val (wrapInt (((white3.data 0 0 0).val : Int) + (2147483393 + 1)))
    rw [← (p3 0 0).1] at e3
    unfold wrapInt at e3
    omega

/-- Where the composition law of red shifts is met: two shifts of the same sign
compose additively on every raster on which `source.RED + a + b` stays within the
32-bit `int` range at every pixel (a sufficient condition); for shifts of opposite
sign the law fails: with RED = 200, shifting by 100 and then by -100 gives 155, while
shifting by their sum gives 200. -/
theorem redShift_compose :
    (∀ (H W : Nat) (source : Image H W) (a b : Int),
      ((0 ≤ a ∧ 0 ≤ b) ∨ (a ≤ 0 ∧ b ≤ 0)) →
      (∀ (i : Fin H) (j : Fin W),
        -2147483648 ≤ ((source.data i j 0).val : Int) + a + b ∧
        ((source.data i j 0).val : Int) + a + b ≤ 2147483647) →
      (redShift source a).bind (fun s => redShift s b) = redShift source (a + b)) ∧
    (∃ out1 out2, (redShift red200 100).bind (fun s => redShift s (-100)) = some out1 ∧
      redShift red200 (100 + -100) = some out2 ∧
      (out1.data 0 0 0).val = 155 ∧ (out2.data 0 0 0).val = 200) := by
  constructor
  · intro H W source a b hsign hfit
    obtain ⟨s1, h1, p1⟩ := redShift_spec source a
    obtain ⟨s2, h2, p2⟩ := redShift_spec s1 b
    obtain ⟨s3, h3, p3⟩ := redShift_spec source (a + b)
    rw [h1, Option.some_bind, h2, h3]
    congr 1
    apply Image.ext
    funext i j c
    have hred : s2.data i j 0 = s3.data i j 0 := by
      have hlt := (source.data i j 0).isLt
      have hf := hfit i j
      have e1 := clamp_wrapInt_val (((source.data i j 0).val : Int) + a) (by omega) (by omega)
      rw [← (p1 i j).1] at e1
      have e2 := clamp_wrapInt_val (((s1.data i j 0).val : Int) + b) (by omega) (by omega)
      rw [← (p2 i j).1] at e2
      have e3 := clamp_wrapInt_val (((source.data i j 0).val : Int) + (a + b))
        (by omega) (by omega)
      rw [← (p3 i j).1] at e3
      apply Fin.ext
      omega
    obtain ⟨cv, hcv⟩ := c
    match cv, hcv with
    | 0, _ => exact hred
    | 1, _ => exact ((p2 i j).2.1.trans (p1 i j).2.1).trans (p3 i j).2.1.symm
    | 2, _ => exact ((p2 i j).2.2.trans (p1 i j).2.2).trans (p3 i j).2.2.symm
  · obtain ⟨s1, h1, p1⟩ := redShift_spec red200 100
    obtain ⟨s2, h2, p2⟩ := redShift_spec s1 (-100)
    obtain ⟨s3, h3, p3⟩ := redShift_spec red200 (100 + -100)
    refine ⟨s2, s3, by simp [h1, h2], h3, ?_, ?_⟩
    · have hw : ((red200.data 0 0 0).val : Int) = 200 := rfl
      have e1 := clamp_wrapInt_val (((red200.data 0 0 0).val : Int) + 100) (by omega) (by omega)
      rw [← (p1 0 0).1] at e1
      have e2 := clamp_wrapInt_val (((s1.data 0 0 0).val : Int) + -100) (by omega) (by omega)
      rw [← (p2 0 0).1] at e2
      omega
    · have hw : ((red200.data 0 0 0).val : Int) = 200 := rfl
      have e3 := clamp_wrapInt_val (((red200.data 0 0 0).val : Int) + (100 + -100))
        (by omega) (by omega)
      rw [← (p3 0 0).1] at e3
      omega
end PhotoChop
